import Mathlib

/-!
Verification development for the realtime audio streaming client
(`AudioStreamer`, the recording worklet and the volume-meter worklet).

Times are modelled as rationals (seconds, the output clock's time base);
PCM samples as integers; normalized samples as rationals.  The JavaScript
numbers involved (divisions and multiplications by the power of two 32768,
additions of the decimal constants 0.1 / 0.2, sample counts) are exact in
binary floating point at these magnitudes, so the rational model is faithful.
-/

namespace VisionAid

/-- Little-endian signed 16-bit read, as `DataView.getInt16(·, true)`:
the two's-complement interpretation of `lo + 256 * hi`. -/
def toSigned16 (u : ℕ) : ℤ :=
  if u < 32768 then (u : ℤ) else (u : ℤ) - 65536

/-- The per-sample normalization inside `AudioStreamer._processPCM16Chunk`:
`float32Array[i] = int16 / 32768`. -/
def int16ToFloat (v : ℤ) : ℚ := (v : ℚ) / 32768

/-- `AudioStreamer._processPCM16Chunk`: converts a byte chunk (list of bytes,
values `0..255`) to normalized samples.  The source loops
`for (i = 0; i < chunk.length / 2; i++)` reading `dataView.getInt16(i * 2, true)`;
consecutive byte pairs are consumed in order.  When the chunk length is odd the
final loop iteration (`i = floor(len/2)`, since `i < len/2` uses real division)
reads past the buffer: `getInt16` throws a `RangeError` that is caught by the
`try/catch` and only logged, so it contributes no sample and the odd trailing
byte is dropped.  Hence the result has exactly `floor(len/2)` samples. -/
def _processPCM16Chunk : List ℕ → List ℚ
  | b0 :: b1 :: rest => int16ToFloat (toSigned16 (b0 + 256 * b1)) :: _processPCM16Chunk rest
  | _ => []

theorem _processPCM16Chunk_length (c : List ℕ) :
    (_processPCM16Chunk c).length = c.length / 2 := by
  induction c using _processPCM16Chunk.induct with
  | case1 b0 b1 rest ih =>
      simp only [_processPCM16Chunk, List.length_cons, ih]
      omega
  | case2 c h =>
      match c, h with
      | [], _ => rfl
      | [b], _ => simp [_processPCM16Chunk]
      | b0 :: b1 :: rest, h => exact ((h b0 b1 rest rfl)).elim

theorem _processPCM16Chunk_append_even (c1 c2 : List ℕ) (h : c1.length % 2 = 0) :
    _processPCM16Chunk (c1 ++ c2) = _processPCM16Chunk c1 ++ _processPCM16Chunk c2 := by
  induction c1 using _processPCM16Chunk.induct with
  | case1 b0 b1 rest ih =>
      have h' : rest.length % 2 = 0 := by
        simp only [List.length_cons] at h
        omega
      simp only [List.cons_append, _processPCM16Chunk, List.append_eq, ih h']
  | case2 c hc =>
      match c, hc with
      | [], _ => rfl
      | [b], _ => simp at h
      | b0 :: b1 :: rest, hc => exact ((hc b0 b1 rest rfl)).elim

theorem _processPCM16Chunk_of_short (c : List ℕ) (h : c.length < 2) :
    _processPCM16Chunk c = [] := by
  match c with
  | [] => rfl
  | [b] => rfl
  | b0 :: b1 :: rest => exact absurd h (by simp)

/-- Segment size: `AudioStreamer.bufferSize = 7680` samples. -/
def bufferSize : ℕ := 7680

/-- Output sample rate: `AudioStreamer.sampleRate = 24000`. -/
def outSampleRate : ℚ := 24000

/-- Helper for `segmentize`: the slicing loop, written with an explicit fuel
bound (any fuel at least the buffer length behaves identically, since each
iteration removes `bufferSize > 0` samples) so the definition is structurally
recursive and computable by the kernel. -/
def segmentizeAux : ℕ → List ℚ → List (List ℚ)
  | 0, buf => if buf.isEmpty then [] else [buf]
  | fuel + 1, buf =>
    if bufferSize ≤ buf.length then
      buf.take bufferSize :: segmentizeAux fuel (buf.drop bufferSize)
    else if buf.isEmpty then [] else [buf]

/-- The slicing loop inside `AudioStreamer.addPCM16`:
`while (processingBuffer.length >= this.bufferSize)` push the first
`bufferSize` samples and keep the rest; finally, a non-empty remainder is
pushed as its own (partial) segment.  Note the remainder is pushed within the
same call — it is not carried over to the next `addPCM16` call. -/
def segmentize (buf : List ℚ) : List (List ℚ) := segmentizeAux buf.length buf

theorem segmentizeAux_irrel (f1 : ℕ) : ∀ (f2 : ℕ) (buf : List ℚ),
    buf.length ≤ f1 → buf.length ≤ f2 → segmentizeAux f1 buf = segmentizeAux f2 buf := by
  induction f1 with
  | zero =>
      intro f2 buf h1 h2
      have hbuf : buf = [] := List.length_eq_zero.mp (Nat.le_zero.mp h1)
      subst hbuf
      cases f2 <;> simp [segmentizeAux, bufferSize]
  | succ f ih =>
      intro f2 buf h1 h2
      match f2 with
      | 0 =>
          have hbuf : buf = [] := List.length_eq_zero.mp (Nat.le_zero.mp h2)
          subst hbuf
          simp [segmentizeAux, bufferSize]
      | f2' + 1 =>
          simp only [segmentizeAux]
          by_cases hb : bufferSize ≤ buf.length
          · rw [if_pos hb, if_pos hb]
            refine congrArg _ (ih f2' (buf.drop bufferSize) ?_ ?_) <;>
              · simp only [List.length_drop, bufferSize] at *
                omega
          · rw [if_neg hb, if_neg hb]

/-- The defining unfolding of `segmentize`, matching the source's loop. -/
theorem segmentize_eq (buf : List ℚ) :
    segmentize buf =
      if bufferSize ≤ buf.length then
        buf.take bufferSize :: segmentize (buf.drop bufferSize)
      else if buf.isEmpty then [] else [buf] := by
  by_cases hb : bufferSize ≤ buf.length
  · rw [if_pos hb]
    unfold segmentize
    match hlen : buf.length, hb with
    | n + 1, hb =>
        simp only [segmentizeAux, hlen, hb, if_pos]
        refine congrArg _ (segmentizeAux_irrel n _ _ ?_ le_rfl)
        simp only [List.length_drop, hlen, bufferSize] at *
        omega
  · rw [if_neg hb]
    unfold segmentize
    match buf with
    | [] => rfl
    | x :: xs => simp only [segmentizeAux, hb, if_neg, if_false]

theorem segmentize_flatten (buf : List ℚ) : (segmentize buf).flatten = buf := by
  generalize hn : buf.length = n
  induction n using Nat.strong_induction_on generalizing buf with
  | _ n ih =>
      subst hn
      rw [segmentize_eq]
      by_cases hb : bufferSize ≤ buf.length
      · rw [if_pos hb, List.flatten_cons,
          ih (buf.drop bufferSize).length ?_ _ rfl, List.take_append_drop]
        simp only [List.length_drop, bufferSize] at *
        omega
      · rw [if_neg hb]
        by_cases he : buf.isEmpty
        · rw [if_pos he]
          simp [List.isEmpty_iff.mp he]
        · rw [if_neg he]
          simp

theorem segmentize_append_aligned (a b : List ℚ) (h : a.length % bufferSize = 0) :
    segmentize (a ++ b) = segmentize a ++ segmentize b := by
  generalize hn : a.length = n
  induction n using Nat.strong_induction_on generalizing a with
  | _ n ih =>
      subst hn
      by_cases ha : bufferSize ≤ a.length
      · have hlen : bufferSize ≤ (a ++ b).length := by
          simp only [List.length_append]; omega
        rw [segmentize_eq (a ++ b), if_pos hlen, List.take_append_of_le_length ha,
            List.drop_append_of_le_length ha]
        have hmod : (a.drop bufferSize).length % bufferSize = 0 := by
          simp only [List.length_drop, bufferSize] at h ha ⊢
          omega
        rw [ih (a.drop bufferSize).length ?_ _ hmod rfl]
        · conv_rhs => rw [segmentize_eq a, if_pos ha]
          rfl
        · simp only [List.length_drop, bufferSize] at *
          omega
      · -- under alignment a short first part must be empty
        have ha0 : a = [] := by
          have h0 : a.length = 0 := by
            simp only [bufferSize] at h ha
            omega
          exact List.length_eq_zero.mp h0
        subst ha0
        rw [show segmentize [] = [] from rfl]
        simp

/-- The mutable state of an `AudioStreamer` instance, plus explicit flags for
the host timers it owns.  `checkInterval` records whether the 100 ms polling
`setInterval` is registered (`this.checkInterval !== null`); `pendingTimeout`
records whether the one-shot deferred `setTimeout(() => this.scheduleNextBuffer(), …)`
from the tail of `scheduleNextBuffer` is in flight.  `endOfQueueSource` holds
the id of the last scheduled buffer source whose `onended` handler is still
attached (nulling the handler / the field is modelled by overwriting /
clearing it); `nextSourceId` numbers the sources created so far.
`gainRamp = some (v, t)` records the last `gainNode.gain.linearRampToValueAtTime(v, t)`
call; `pendingGainReset` records the 200 ms `setTimeout` in `stop` that
replaces the gain node by a fresh one at full volume. -/
structure AudioStreamer where
  audioQueue : List (List ℚ)
  isPlaying : Bool
  isStreamComplete : Bool
  checkInterval : Bool
  scheduledTime : ℚ
  endOfQueueSource : Option ℕ
  nextSourceId : ℕ
  pendingTimeout : Bool
  gainRamp : Option (ℚ × ℚ)
  pendingGainReset : Bool
deriving Repr, DecidableEq

/-- The state right after `new AudioStreamer(context)` (all fields at their
initializers; the schedule cursor `scheduledTime` starts at 0). -/
def initStreamer : AudioStreamer :=
  { audioQueue := [], isPlaying := false, isStreamComplete := false,
    checkInterval := false, scheduledTime := 0, endOfQueueSource := none,
    nextSourceId := 0, pendingTimeout := false, gainRamp := none,
    pendingGainReset := false }

/-- Result of the `while` loop of `AudioStreamer.scheduleNextBuffer`:
the remaining queue, the updated schedule cursor, the updated end-of-queue
source and id counter, and the `(startTime, duration)` of each buffer source
started, in order. -/
structure PassResult where
  queue : List (List ℚ)
  cursor : ℚ
  eoq : Option ℕ
  nid : ℕ
  scheds : List (ℚ × ℚ)
deriving Repr, DecidableEq

/-- The `while` loop of `AudioStreamer.scheduleNextBuffer`, with `now` the
output clock (`context.currentTime`, read once per pass):
while the queue is non-empty and `scheduledTime < now + 0.2`
(`SCHEDULE_AHEAD_TIME`), shift the head segment, designate it as the
end-of-queue source when the queue became empty (nulling the previous
end-of-queue `onended` handler, modelled by overwriting the id), start it at
`max(scheduledTime, now)` (never schedule in the past), and advance the
cursor by the buffer's duration `length / sampleRate`. -/
def passLoop (now : ℚ) : List (List ℚ) → ℚ → Option ℕ → ℕ → PassResult
  | [], cursor, eoq, nid => ⟨[], cursor, eoq, nid, []⟩
  | seg :: rest, cursor, eoq, nid =>
    if cursor < now + 1/5 then
      let start := max cursor now
      let dur := (seg.length : ℚ) / outSampleRate
      let r := passLoop now rest (start + dur) (if rest.isEmpty then some nid else eoq) (nid + 1)
      ⟨r.queue, r.cursor, r.eoq, r.nid, (start, dur) :: r.scheds⟩
    else ⟨seg :: rest, cursor, eoq, nid, []⟩

/-- `AudioStreamer.scheduleNextBuffer`: run the scheduling loop, then
- if the queue is empty and the stream is complete: stop playing and clear
  the polling interval;
- if the queue is empty and the stream is not complete: ensure the 100 ms
  polling interval is registered;
- if the queue is non-empty (the lookahead window is full): arm the one-shot
  deferred re-invocation `setTimeout(() => this.scheduleNextBuffer(), …)`.
Returns the updated state and the `(start, duration)` list of sources
started during this pass. -/
def scheduleNextBuffer (now : ℚ) (s : AudioStreamer) : AudioStreamer × List (ℚ × ℚ) :=
  let r := passLoop now s.audioQueue s.scheduledTime s.endOfQueueSource s.nextSourceId
  let s' := { s with audioQueue := r.queue, scheduledTime := r.cursor,
                     endOfQueueSource := r.eoq, nextSourceId := r.nid }
  if r.queue.isEmpty then
    if s'.isStreamComplete then
      ({ s' with isPlaying := false, checkInterval := false }, r.scheds)
    else
      ({ s' with checkInterval := true }, r.scheds)
  else
    ({ s' with pendingTimeout := true }, r.scheds)

/-- `AudioStreamer.addPCM16`: clear the stream-complete flag, convert the
chunk, slice it into segments pushed onto the queue (`segmentize`), and if
not already playing, start playing: initialize the cursor to
`now + 0.1` (`initialBufferTime`) and run a scheduling pass.  Returns the
updated state, the list of segments pushed onto the queue by this call, and
the sources started by the triggered pass. -/
def addPCM16 (now : ℚ) (s : AudioStreamer) (chunk : List ℕ) :
    AudioStreamer × List (List ℚ) × List (ℚ × ℚ) :=
  let s1 := { s with isStreamComplete := false }
  let segs := segmentize (_processPCM16Chunk chunk)
  let s2 := { s1 with audioQueue := s1.audioQueue ++ segs }
  if s2.isPlaying then (s2, segs, [])
  else
    let s3 := { s2 with isPlaying := true, scheduledTime := now + 1/10 }
    let r := scheduleNextBuffer now s3
    (r.1, segs, r.2)

/-- `AudioStreamer.stop`: stop playing, mark the stream complete, clear the
queue, reset the cursor to the output clock's current time, clear the polling
interval, ramp the gain linearly to 0 over 0.1 s, and arm the 200 ms timeout
that replaces the gain node with a fresh one at full volume.  The one-shot
deferred `setTimeout` of `scheduleNextBuffer` is left untouched, as is the
end-of-queue source registration. -/
def stop (now : ℚ) (s : AudioStreamer) : AudioStreamer :=
  { s with isPlaying := false, isStreamComplete := true, audioQueue := [],
           scheduledTime := now, checkInterval := false,
           gainRamp := some (0, now + 1/10), pendingGainReset := true }

/-- `AudioStreamer.complete` (the `markEndOfStream` operation): set the
stream-complete flag and invoke `this.onComplete()`.  The boolean returned
records whether `onComplete` was invoked during this call. -/
def complete (s : AudioStreamer) : AudioStreamer × Bool :=
  ({ s with isStreamComplete := true }, true)

/-- The `onended` handler attached to the current end-of-queue source in
`scheduleNextBuffer`, firing when that source's playback ends: if the queue
is empty and the source is still the registered end-of-queue source, clear
the registration and invoke `onComplete` (the returned boolean). -/
def sourceEnded (s : AudioStreamer) (id : ℕ) : AudioStreamer × Bool :=
  if s.audioQueue.isEmpty && s.endOfQueueSource == some id then
    ({ s with endOfQueueSource := none }, true)
  else (s, false)

/-- A sequence of `addPCM16` calls, each with its own arrival time on the
output clock.  Returns the final state and the concatenated list of all
segments pushed onto the pending queue, in submission order. -/
def runChunks (s : AudioStreamer) : List (ℚ × List ℕ) → AudioStreamer × List (List ℚ)
  | [] => (s, [])
  | (now, c) :: rest =>
    let r := addPCM16 now s c
    let r2 := runChunks r.1 rest
    (r2.1, r.2.1 ++ r2.2)

/-- The scheduling rule as the specification states it: the first segment
starts at `max(cursor, now)`, and after scheduling a segment of duration `d`
the cursor advances to its start plus `d`.  Input: the list of scheduled
durations; output: the corresponding start times. -/
def specStartTimes (now cursor : ℚ) : List ℚ → List ℚ
  | [] => []
  | d :: ds => max cursor now :: specStartTimes now (max cursor now + d) ds

theorem addPCM16_pushed (now : ℚ) (s : AudioStreamer) (chunk : List ℕ) :
    (addPCM16 now s chunk).2.1 = segmentize (_processPCM16Chunk chunk) := by
  unfold addPCM16
  dsimp only
  split <;> rfl

/-- Claim C1 (order preservation): for any sequence of chunks passed to
`addPCM16`, each at its own arrival time, the concatenation of the samples of
all segments pushed onto the pending queue equals the concatenation of the
normalized input samples, in submission order, regardless of how chunk
lengths align with the segment size. -/
theorem c1_order_preservation (s : AudioStreamer) (tcs : List (ℚ × List ℕ)) :
    (runChunks s tcs).2.flatten =
      (tcs.map (fun tc => _processPCM16Chunk tc.2)).flatten := by
  induction tcs generalizing s with
  | nil => rfl
  | cons tc rest ih =>
      obtain ⟨now, c⟩ := tc
      show ((addPCM16 now s c).2.1 ++ (runChunks (addPCM16 now s c).1 rest).2).flatten = _
      rw [List.flatten_append, addPCM16_pushed, segmentize_flatten, ih]
      simp

/-- Claim C2, counterexample: two 1-sample chunks pushed by separate
`addPCM16` calls produce two 1-sample segments, while their 4-byte
concatenation pushed as one chunk produces a single 2-sample segment — the
partial remainder is flushed at the end of each call, not carried over, so
the segment boundaries differ. -/
theorem c2_carryover_counterexample :
    (runChunks initStreamer [(0, [0, 0]), (0, [0, 0])]).2 ≠
      (runChunks initStreamer [(0, [0, 0, 0, 0])]).2 := by
  with_unfolding_all decide

/-- Claim C2 as amended: submitting two chunks in two `addPCM16` calls pushes
the same concatenation of samples as submitting their concatenation in one
call, but the remainder is flushed per call rather than carried over, so the
segment boundaries agree only under alignment — in particular when the first
chunk holds a whole number of segments. -/
theorem c2_carryover_amended (now1 now2 : ℚ) (s : AudioStreamer) (c1 c2 : List ℕ)
    (he : c1.length % 2 = 0) :
    ((runChunks s [(now1, c1), (now2, c2)]).2.flatten =
        (runChunks s [(now1, c1 ++ c2)]).2.flatten) ∧
    ((c1.length / 2) % bufferSize = 0 →
        (runChunks s [(now1, c1), (now2, c2)]).2 = (runChunks s [(now1, c1 ++ c2)]).2) := by
  constructor
  · simp only [runChunks, addPCM16_pushed, List.append_nil, List.flatten_append,
      segmentize_flatten]
    rw [_processPCM16Chunk_append_even c1 c2 he]
  · intro hal
    simp only [runChunks, addPCM16_pushed, List.append_nil]
    rw [_processPCM16Chunk_append_even c1 c2 he,
      segmentize_append_aligned _ _ (by rw [_processPCM16Chunk_length]; exact hal)]

/-- Witness for the amended claim C2 at a concrete input: the first chunk is
empty (an aligned number of segments), the second is one sample. -/
theorem c2_carryover_amended_witness :
    ((runChunks initStreamer [(0, ([] : List ℕ)), (0, [1, 0])]).2.flatten =
        (runChunks initStreamer [(0, ([] : List ℕ) ++ [1, 0])]).2.flatten) ∧
    ((([] : List ℕ).length / 2) % bufferSize = 0 →
        (runChunks initStreamer [(0, ([] : List ℕ)), (0, [1, 0])]).2 =
          (runChunks initStreamer [(0, ([] : List ℕ) ++ [1, 0])]).2) :=
  c2_carryover_amended 0 0 initStreamer [] [1, 0] (by decide)

/-- Claim C3 (no overlap, never in the past): in a scheduling pass, the
dequeued segments' start times follow the rule "start at
`max(cursor, now)`, then advance the cursor by the segment's duration"
(`specStartTimes`), the final cursor is the last scheduled end time, and
consequently consecutive scheduled segments never overlap:
each segment's end time is at most the next segment's start time. -/
theorem c3_schedule_no_overlap (now cursor : ℚ) (queue : List (List ℚ))
    (eoq : Option ℕ) (nid : ℕ) :
    ((passLoop now queue cursor eoq nid).scheds.map Prod.fst =
        specStartTimes now cursor ((passLoop now queue cursor eoq nid).scheds.map Prod.snd)) ∧
    ((passLoop now queue cursor eoq nid).cursor =
        (passLoop now queue cursor eoq nid).scheds.foldl (fun _ p => p.1 + p.2) cursor) ∧
    List.Chain' (fun a b : ℚ × ℚ => a.1 + a.2 ≤ b.1)
      (passLoop now queue cursor eoq nid).scheds := by
  induction queue generalizing cursor eoq nid with
  | nil => exact ⟨rfl, rfl, List.chain'_nil⟩
  | cons seg rest ih =>
      by_cases hc : cursor < now + 1/5
      · obtain ⟨ih1, ih2, ih3⟩ :=
          ih (max cursor now + (seg.length : ℚ) / outSampleRate)
            (if rest.isEmpty then some nid else eoq) (nid + 1)
        simp only [passLoop, if_pos hc]
        refine ⟨?_, ?_, ?_⟩
        · rw [List.map_cons, List.map_cons, specStartTimes]
          exact congrArg _ ih1
        · rw [List.foldl_cons]
          exact ih2
        · refine List.chain'_cons'.mpr ⟨?_, ih3⟩
          intro y hy
          rcases hs : (passLoop now rest (max cursor now + (seg.length : ℚ) / outSampleRate)
              (if rest.isEmpty then some nid else eoq) (nid + 1)).scheds with _ | ⟨p, ps⟩
          · rw [hs] at hy; simp at hy
          · rw [hs] at hy ih1
            simp only [List.head?_cons, Option.mem_def, Option.some.injEq] at hy
            subst hy
            simp only [List.map_cons, specStartTimes, List.cons.injEq] at ih1
            rw [ih1.1]
            exact le_max_left _ _
      · simp only [passLoop, if_neg hc]
        exact ⟨rfl, rfl, List.chain'_nil⟩

/-- Claim C4, counterexample: from the initial state, one `addPCM16` call
schedules its single segment (the queue drains but the source's playback has
not ended — it is still registered as the end-of-queue source), and then
`complete` (markEndOfStream) fires `onComplete` immediately, although the
last scheduled segment's playback has not ended.  This contradicts the claim
that the notification never fires before playback of the last segment ends. -/
theorem c4_complete_counterexample :
    ((complete (addPCM16 0 initStreamer [0, 0]).1).2 = true) ∧
    (addPCM16 0 initStreamer [0, 0]).1.endOfQueueSource = some 0 := by
  with_unfolding_all decide

/-- Claim C4 as amended: `complete` sets the stream-complete flag and fires
the `onComplete` notification immediately and unconditionally, regardless of
queued segments or pending playback; the drain-based notification is
delivered separately by the end-of-queue source's `onended` handler, which
fires exactly when the queue is empty and that source is still the
registered end-of-queue source. -/
theorem c4_complete_amended (s : AudioStreamer) :
    ((complete s).2 = true) ∧
    ((complete s).1 = { s with isStreamComplete := true }) ∧
    (∀ id : ℕ, (sourceEnded s id).2 =
      (s.audioQueue.isEmpty && s.endOfQueueSource == some id)) := by
  refine ⟨rfl, rfl, fun id => ?_⟩
  cases hc : (s.audioQueue.isEmpty && s.endOfQueueSource == some id) with
  | true => simp [sourceEnded, hc]
  | false => simp [sourceEnded, hc]

/-- Claim C5 (idempotent stop): calling `stop` twice in a row (at the same
output-clock time) leaves the scheduler in exactly the same state as calling
it once, and that state has an empty pending queue, is not playing, has the
stream-complete flag set, and has the cursor at the output clock's current
time. -/
theorem c5_stop_idempotent (now : ℚ) (s : AudioStreamer) :
    stop now (stop now s) = stop now s ∧
    (stop now s).audioQueue = [] ∧
    (stop now s).isPlaying = false ∧
    (stop now s).isStreamComplete = true ∧
    (stop now s).scheduledTime = now :=
  ⟨rfl, rfl, rfl, rfl, rfl⟩

/-- Claim C6, counterexample: when the lookahead window is already full
(cursor far ahead of the clock), a scheduling pass arms the one-shot deferred
re-invocation `setTimeout`; a subsequent `stop` does NOT cancel it — the
timer is still in flight after `stop`, contradicting the claim that every
in-flight deferred-rescheduling timer is cancelled. -/
theorem c6_stale_timer_counterexample :
    ((scheduleNextBuffer 0
        { initStreamer with audioQueue := [[0]], isPlaying := true,
                            scheduledTime := 10 }).1.pendingTimeout = true) ∧
    ((stop 0 (scheduleNextBuffer 0
        { initStreamer with audioQueue := [[0]], isPlaying := true,
                            scheduledTime := 10 }).1).pendingTimeout = true) := by
  with_unfolding_all decide

/-- Claim C6 as amended: after `stop` the queue is empty, the cursor is reset
to the output clock's current time, the 100 ms polling interval is cancelled,
the gain is ramped linearly to 0 over 100 ms and the 200 ms full-volume
output-path reset is armed; the one-shot deferred re-invocation of the
scheduling pass is NOT cancelled, but firing the stale callback on the
post-stop state is harmless: it schedules nothing and only consumes the
timer. -/
theorem c6_stop_postcondition_amended (now now' : ℚ) (s : AudioStreamer) :
    ((stop now s).audioQueue = []) ∧
    ((stop now s).scheduledTime = now) ∧
    ((stop now s).checkInterval = false) ∧
    ((stop now s).gainRamp = some (0, now + 1/10)) ∧
    ((stop now s).pendingGainReset = true) ∧
    ((stop now s).pendingTimeout = s.pendingTimeout) ∧
    (scheduleNextBuffer now' { stop now s with pendingTimeout := false } =
      ({ stop now s with pendingTimeout := false }, [])) :=
  ⟨rfl, rfl, rfl, rfl, rfl, rfl, rfl⟩

/-- Claim C10 (implicit edge case): submitting a chunk with zero whole
samples (fewer than 2 bytes) while the scheduler is idle (not playing, empty
queue) still clears the stream-complete flag, sets `isPlaying`, initializes
the cursor to `now + 0.1`, and registers the 100 ms polling interval, even
though no segment was queued. -/
theorem c10_empty_submit_starts_stream (now : ℚ) (s : AudioStreamer) (chunk : List ℕ)
    (hp : s.isPlaying = false) (hq : s.audioQueue = []) (hlen : chunk.length < 2) :
    ((addPCM16 now s chunk).1.isStreamComplete = false) ∧
    ((addPCM16 now s chunk).1.isPlaying = true) ∧
    ((addPCM16 now s chunk).1.scheduledTime = now + 1/10) ∧
    ((addPCM16 now s chunk).1.checkInterval = true) ∧
    ((addPCM16 now s chunk).1.audioQueue = []) := by
  have hpc : _processPCM16Chunk chunk = [] := _processPCM16Chunk_of_short chunk hlen
  simp [addPCM16, scheduleNextBuffer, passLoop, segmentize, segmentizeAux, hpc, hp, hq]

/-- Witness for claim C10 at a concrete input: the empty chunk submitted to
the freshly constructed streamer. -/
theorem c10_empty_submit_witness :
    ((addPCM16 0 initStreamer []).1.isStreamComplete = false) ∧
    ((addPCM16 0 initStreamer []).1.isPlaying = true) ∧
    ((addPCM16 0 initStreamer []).1.scheduledTime = 0 + 1/10) ∧
    ((addPCM16 0 initStreamer []).1.checkInterval = true) ∧
    ((addPCM16 0 initStreamer []).1.audioQueue = []) :=
  c10_empty_submit_starts_stream 0 initStreamer [] rfl rfl (by decide)

/-- JavaScript number-to-integer truncation (`ToIntegerOrInfinity`): round
toward zero, as applied when a float is stored into an `Int16Array`. -/
def ratTrunc (q : ℚ) : ℤ := if 0 ≤ q then ⌊q⌋ else ⌈q⌉

/-- The wrap of an integer into a signed 16-bit `Int16Array` element
(JS `ToInt16`: modulo 2^16 into `[-32768, 32767]`). -/
def toInt16Wrap (n : ℤ) : ℤ := (n + 32768) % 65536 - 32768

/-- The per-sample conversion in `AudioRecordingWorklet.processChunk`:
`this.buffer[this.bufferWriteIndex++] = float32Array[i] * 32768`, the
multiplication followed by the `Int16Array` element coercion. -/
def processChunkSample (x : ℚ) : ℤ := toInt16Wrap (ratTrunc (x * 32768))

/-- Claim C7 (round-trip conversion): normalizing a 16-bit sample value `v`
(as `_processPCM16Chunk` does, `v / 32768`) yields a value in `[-1, 1)`, and
re-quantizing it (as the recording worklet does, `· * 32768` into an
`Int16Array` slot) yields `v` within ±1 LSB (here in fact exactly, since
division and multiplication by 32768 are exact). -/
theorem c7_roundtrip (v : ℤ) (h1 : -32768 ≤ v) (h2 : v ≤ 32767) :
    (-1 ≤ int16ToFloat v) ∧ (int16ToFloat v < 1) ∧
    |processChunkSample (int16ToFloat v) - v| ≤ 1 := by
  have h32 : (0:ℚ) < 32768 := by norm_num
  refine ⟨?_, ?_, ?_⟩
  · rw [int16ToFloat, le_div_iff₀ h32]
    have : (-32768 : ℚ) ≤ (v : ℚ) := by exact_mod_cast h1
    linarith
  · rw [int16ToFloat, div_lt_one h32]
    exact_mod_cast (by omega : v < 32768)
  · have he : processChunkSample (int16ToFloat v) = v := by
      unfold processChunkSample int16ToFloat
      rw [div_mul_cancel₀ _ (by norm_num : (32768:ℚ) ≠ 0)]
      have ht : ratTrunc ((v : ℤ) : ℚ) = v := by
        unfold ratTrunc
        split
        · exact Int.floor_intCast v
        · exact Int.ceil_intCast v
      rw [ht]
      unfold toInt16Wrap
      omega
    rw [he]
    simp

/-- Witness for claim C7 at the extreme sample value `-32768`. -/
theorem c7_roundtrip_witness :
    (-1 ≤ int16ToFloat (-32768)) ∧ (int16ToFloat (-32768) < 1) ∧
    |processChunkSample (int16ToFloat (-32768)) - (-32768)| ≤ 1 :=
  c7_roundtrip (-32768) (by decide) (by decide)

/-- The state of the `VolMeter` worklet.  The source stores `this.volume`;
since the update rule `volume = max(rms, volume * 0.7)` only ever involves
non-negative quantities, the model stores the square `volumeSq = volume²`
exactly in ℚ (the square root needed for `rms = sqrt(sum/len)` is not
computable in ℚ); the claim-level statements recover `volume` as
`Real.sqrt volumeSq`.  `nextUpdateFrame` is the frame countdown used for
rate-limiting `postMessage` deliveries. -/
structure VolMeter where
  volumeSq : ℚ
  nextUpdateFrame : ℚ
deriving Repr, DecidableEq

/-- The `VolMeter` constructor: `volume = 0`,
`nextUpdateFrame = updateIntervalInMS = 25` (note: 25, the milliseconds
value, not 25 ms worth of frames). -/
def volMeterInit : VolMeter := { volumeSq := 0, nextUpdateFrame := 25 }

/-- `this.updateIntervalInMS`, initialized to 25. -/
def updateIntervalInMS : ℚ := 25

/-- The `intervalInFrames` getter: `(updateIntervalInMS / 1000) * sampleRate`. -/
def intervalInFrames (sampleRate : ℚ) : ℚ := updateIntervalInMS / 1000 * sampleRate

/-- Sum of squares of a block, the loop `sum += samples[i] * samples[i]`. -/
def sumSq (l : List ℚ) : ℚ := (l.map (fun x => x * x)).sum

/-- One `VolMeter.process` call on a block of samples (`I` is
`intervalInFrames`): `rms = sqrt(sum / samples.length)`;
`volume = max(rms, volume * 0.7)` (stored squared:
`volumeSq = max(sum / len, volumeSq * 0.49)`);
`nextUpdateFrame -= samples.length`; if it dropped below 0, add `I` back and
post `{volume}` (the posted volume, squared, is returned). -/
def VolMeter.process (I : ℚ) (s : VolMeter) (samples : List ℚ) : VolMeter × Option ℚ :=
  let rmsSq := sumSq samples / samples.length
  let volumeSq := max rmsSq (s.volumeSq * (49/100))
  let nf := s.nextUpdateFrame - samples.length
  if nf < 0 then (⟨volumeSq, nf + I⟩, some volumeSq)
  else (⟨volumeSq, nf⟩, none)

/-- A run of `VolMeter.process` over successive blocks, counting the number
of `postMessage` deliveries. -/
def VolMeter.run (I : ℚ) (s : VolMeter) : List (List ℚ) → VolMeter × ℕ
  | [] => (s, 0)
  | b :: bs =>
    let r := VolMeter.process I s b
    let r2 := VolMeter.run I r.1 bs
    (r2.1, (if r.2.isSome then 1 else 0) + r2.2)

theorem VolMeter.process_eq (I : ℚ) (s : VolMeter) (samples : List ℚ) :
    VolMeter.process I s samples =
      (⟨max (sumSq samples / samples.length) (s.volumeSq * (49/100)),
        if s.nextUpdateFrame - samples.length < 0
        then s.nextUpdateFrame - samples.length + I
        else s.nextUpdateFrame - samples.length⟩,
       if s.nextUpdateFrame - samples.length < 0
       then some (max (sumSq samples / samples.length) (s.volumeSq * (49/100)))
       else none) := by
  by_cases h : s.nextUpdateFrame - (samples.length : ℚ) < 0 <;>
    simp [VolMeter.process, h]

theorem VolMeter.process_nf_le (I : ℚ) (s : VolMeter) (b : List ℚ) :
    (VolMeter.process I s b).1.nextUpdateFrame ≤ max s.nextUpdateFrame I := by
  have hlen : (0:ℚ) ≤ (b.length : ℚ) := Nat.cast_nonneg _
  rw [VolMeter.process_eq]
  by_cases h : s.nextUpdateFrame - (b.length : ℚ) < 0
  · simp only [h, if_pos]
    have := le_max_right s.nextUpdateFrame I
    linarith
  · simp only [h, if_neg, if_false]
    have := le_max_left s.nextUpdateFrame I
    linarith

theorem VolMeter.run_nf (I : ℚ) (s : VolMeter) (bs : List (List ℚ)) :
    (VolMeter.run I s bs).1.nextUpdateFrame =
      s.nextUpdateFrame - (((bs.map List.length).sum : ℕ) : ℚ) +
        ((VolMeter.run I s bs).2 : ℚ) * I := by
  induction bs generalizing s with
  | nil => simp [VolMeter.run]
  | cons b bs ih =>
      simp only [VolMeter.run, List.map_cons, List.sum_cons]
      rw [ih, VolMeter.process_eq]
      by_cases h : s.nextUpdateFrame - (b.length : ℚ) < 0 <;>
        · simp only [h, if_pos, if_neg, if_false, Option.isSome_some, Option.isSome_none]
          push_cast
          ring

theorem VolMeter.run_nf_le (I : ℚ) (s : VolMeter) (bs : List (List ℚ)) :
    (VolMeter.run I s bs).1.nextUpdateFrame ≤ max s.nextUpdateFrame I := by
  induction bs generalizing s with
  | nil => exact le_max_left _ _
  | cons b bs ih =>
      calc (VolMeter.run I (VolMeter.process I s b).1 bs).1.nextUpdateFrame
          ≤ max (VolMeter.process I s b).1.nextUpdateFrame I := ih _
        _ ≤ max (max s.nextUpdateFrame I) I :=
            max_le_max (VolMeter.process_nf_le I s b) le_rfl
        _ = max s.nextUpdateFrame I := by rw [max_assoc, max_self]

set_option maxRecDepth 100000 in
/-- Claim C8, counterexample to the delivery-rate clause, at the recording
sample rate 16000 Hz where 25 ms of audio is `intervalInFrames 16000 = 400`
frames: (i) from the initial state a single 26-sample block (≈1.6 ms of
audio) already triggers a message, because `nextUpdateFrame` is initialized
to 25 (the milliseconds value) rather than 25 ms worth of frames; and
(ii) an 800-sample block triggers a message and leaves a deficit, so the
very next 1-sample block triggers another message — two messages delivered
within one sample of audio, i.e. more than one message per 25 ms of audio. -/
theorem c8_rate_counterexample :
    ((VolMeter.process (intervalInFrames 16000) volMeterInit
        (List.replicate 26 0)).2.isSome = true) ∧
    ((VolMeter.process (intervalInFrames 16000) volMeterInit
        (List.replicate 800 0)).2.isSome = true) ∧
    ((VolMeter.process (intervalInFrames 16000)
        (VolMeter.process (intervalInFrames 16000) volMeterInit
          (List.replicate 800 0)).1 [0]).2.isSome = true) := by
  with_unfolding_all decide

/-- Claim C8 as amended: (a) each delivered volume value equals
`max(rms, previous_volume * 0.7)` with `rms` the root-mean-square of the
current block (stated both on the squared representation and, via
`Real.sqrt`, in the claim's own terms), and every delivered value is the
just-updated volume; (b) the delivery rate is bounded in aggregate: over any
run from a state whose frame countdown lies in `[0, I]` (as in the initial
state whenever `I ≥ 25`), the number `k` of messages satisfies
`k * I ≤ totalSamples + I` — at most one message per 25 ms of audio plus one;
individual messages can however be arbitrarily close together (see the
counterexample). -/
theorem c8_volume_and_rate_amended :
    (∀ (I : ℚ) (s : VolMeter) (block : List ℚ), block ≠ [] → 0 ≤ s.volumeSq →
      ((VolMeter.process I s block).1.volumeSq =
          max (sumSq block / block.length) (s.volumeSq * (49/100))) ∧
      (Real.sqrt (((VolMeter.process I s block).1.volumeSq : ℚ) : ℝ) =
          max (Real.sqrt (((sumSq block / block.length : ℚ)) : ℝ))
            (Real.sqrt ((s.volumeSq : ℚ) : ℝ) * (7/10))) ∧
      ((VolMeter.process I s block).2 = none ∨
        (VolMeter.process I s block).2 = some ((VolMeter.process I s block).1.volumeSq))) ∧
    (∀ (I : ℚ) (s : VolMeter) (blocks : List (List ℚ)),
      0 ≤ s.nextUpdateFrame → s.nextUpdateFrame ≤ I →
      ((VolMeter.run I s blocks).2 : ℚ) * I ≤
        ((((blocks.map List.length).sum : ℕ)) : ℚ) + I) := by
  constructor
  · intro I s block _hb hv
    have hfst : (VolMeter.process I s block).1.volumeSq =
        max (sumSq block / block.length) (s.volumeSq * (49/100)) := by
      rw [VolMeter.process_eq]
    refine ⟨hfst, ?_, ?_⟩
    · rw [hfst]
      have hmono : Monotone Real.sqrt := fun a b h => Real.sqrt_le_sqrt h
      have hcast : ((max (sumSq block / block.length) (s.volumeSq * (49/100)) : ℚ) : ℝ) =
          max ((sumSq block / block.length : ℚ) : ℝ)
            (((s.volumeSq : ℚ) : ℝ) * ((49:ℝ)/100)) := by
        rw [Rat.cast_max]
        push_cast
        ring_nf
      rw [hcast, hmono.map_max]
      have hq : Real.sqrt (((s.volumeSq : ℚ) : ℝ) * ((49:ℝ)/100)) =
          Real.sqrt ((s.volumeSq : ℚ) : ℝ) * (7/10) := by
        rw [Real.sqrt_mul (by exact_mod_cast hv) _]
        rw [show ((49:ℝ)/100) = (7/10)^2 by norm_num,
          Real.sqrt_sq (by norm_num : (0:ℝ) ≤ 7/10)]
      rw [hq]
    · rw [VolMeter.process_eq]
      by_cases h : s.nextUpdateFrame - (block.length : ℚ) < 0
      · right; simp [h]
      · left; simp [h]
  · intro I s blocks h0 hI
    have hid := VolMeter.run_nf I s blocks
    have hle := VolMeter.run_nf_le I s blocks
    rw [max_eq_right hI] at hle
    linarith [hid, hle]

/-- Witness for the amended claim C8 at concrete inputs: a one-sample block
for the volume formula, a single-block run for the rate bound. -/
theorem c8_volume_and_rate_amended_witness :
    ((VolMeter.process 400 volMeterInit [1]).1.volumeSq =
        max (sumSq [1] / [1].length) (volMeterInit.volumeSq * (49/100))) ∧
    (((VolMeter.run 400 volMeterInit [[0]]).2 : ℚ) * 400 ≤
        (((([[0]].map List.length).sum : ℕ)) : ℚ) + 400) :=
  ⟨(c8_volume_and_rate_amended.1 400 volMeterInit [1]
      (by simp) (by with_unfolding_all decide)).1,
    c8_volume_and_rate_amended.2 400 volMeterInit [[0]]
      (by with_unfolding_all decide) (by with_unfolding_all decide)⟩

/-- Claim C9 (odd-length chunk tolerance): conversion is total — in the model
`_processPCM16Chunk` and `addPCM16` are functions, mirroring that the
internal out-of-range `getInt16` on an odd trailing byte is caught and only
logged — a chunk yields exactly `floor(len/2)` whole samples, and appending
one trailing byte to an even-length chunk changes neither the converted
samples nor the segments `addPCM16` pushes. -/
theorem c9_odd_chunk_tolerated (now : ℚ) (s : AudioStreamer) (c : List ℕ) (b : ℕ) :
    ((_processPCM16Chunk c).length = c.length / 2) ∧
    (c.length % 2 = 0 → _processPCM16Chunk (c ++ [b]) = _processPCM16Chunk c) ∧
    (c.length % 2 = 0 →
      (addPCM16 now s (c ++ [b])).2.1 = (addPCM16 now s c).2.1) := by
  have hdrop : c.length % 2 = 0 → _processPCM16Chunk (c ++ [b]) = _processPCM16Chunk c := by
    intro he
    rw [_processPCM16Chunk_append_even c [b] he]
    simp [_processPCM16Chunk]
  refine ⟨_processPCM16Chunk_length c, hdrop, fun he => ?_⟩
  rw [addPCM16_pushed, addPCM16_pushed, hdrop he]

/-- Witness for claim C9 at a concrete odd-length chunk: `[1, 2, 5]` versus
its even prefix `[1, 2]`. -/
theorem c9_odd_chunk_witness :
    ((_processPCM16Chunk [1, 2]).length = [1, 2].length / 2) ∧
    (_processPCM16Chunk ([1, 2] ++ [5]) = _processPCM16Chunk [1, 2]) ∧
    ((addPCM16 0 initStreamer ([1, 2] ++ [5])).2.1 = (addPCM16 0 initStreamer [1, 2]).2.1) :=
  ⟨(c9_odd_chunk_tolerated 0 initStreamer [1, 2] 5).1,
   (c9_odd_chunk_tolerated 0 initStreamer [1, 2] 5).2.1 (by decide),
   (c9_odd_chunk_tolerated 0 initStreamer [1, 2] 5).2.2 (by decide)⟩

end VisionAid
